import Mathlib

/-!
Verification development for the Ollama CLI core: the streaming
newline-delimited JSON decoder of `OllamaClient.generate`
(`streamGenerator`), the Gemini/Ollama response translator
(`OllamaContentGenerator`), and the transport helper (`fetchWithRetry`).
Each definition is a shallow embedding of the corresponding TypeScript
function; theorems settle the spec claims about them.
-/

namespace OllamaSpec

/-! ### Streaming decoder (`streamGenerator` in services/ollama.ts)

The HTTP body arrives as a sequence of byte reads; the decoder keeps a
text buffer, extracts newline-terminated lines from it, trims each line,
parses non-empty lines as JSON (skipping lines that fail to parse), and
at end-of-stream parses a non-empty trailing buffer as the final chunk.
Text is modelled as `List Char`; `JSON.parse` is modelled by an abstract
partial parser `p : List Char → Option α` (`none` = parse error, which
the code catches, logs and skips). -/

/-- The predicate of the decoder's line scan: the character is not a newline. -/
def notNl (c : Char) : Bool := decide (c ≠ '\n')

/-- JS `String.prototype.trim` whitespace (the ASCII part that can occur
around a JSON line). -/
def isJsWs (c : Char) : Bool :=
  c == ' ' || c == '\t' || c == '\n' || c == '\r' || c == '\x0b' || c == '\x0c'

/-- JS `s.trim()` on a character list: drop whitespace from both ends. -/
def trimChars (s : List Char) : List Char :=
  ((s.dropWhile isJsWs).reverse.dropWhile isJsWs).reverse

/-- The inner `while ((newlineIndex = buffer.indexOf('\n')) !== -1)` loop:
as long as the buffer holds a newline, split off the line before it
(`buffer.slice(0, newlineIndex)`) and continue on `buffer.slice(newlineIndex + 1)`.
Returns the extracted lines (untrimmed) and the remaining buffer. -/
def extractLines (buf : List Char) : List (List Char) × List Char :=
  if h : '\n' ∈ buf then
    let rest := (buf.dropWhile notNl).tail
    let r := extractLines rest
    (buf.takeWhile notNl :: r.1, r.2)
  else ([], buf)
termination_by buf.length
decreasing_by
  have hne : buf.dropWhile notNl ≠ [] := by
    intro hnil
    have hall := List.dropWhile_eq_nil_iff.mp hnil '\n' h
    simp [notNl] at hall
  have h1 : (buf.dropWhile notNl).tail.length = (buf.dropWhile notNl).length - 1 :=
    List.length_tail _
  have hpos : 0 < (buf.dropWhile notNl).length := List.length_pos.mpr hne
  have h2 : (buf.dropWhile notNl).length ≤ buf.length := by
    have hsplit := congrArg List.length (List.takeWhile_append_dropWhile (p := notNl) (l := buf))
    simp only [List.length_append] at hsplit
    omega
  omega

/-- Per-line handling of the decoder: trim the line; if it is empty, emit
nothing; otherwise `JSON.parse` it, emitting the chunk on success and
nothing on a parse error (the `catch` block only logs). -/
def emitLine (p : List Char → Option α) (l : List Char) : List α :=
  let t := trimChars l
  if t = [] then []
  else
    match p t with
    | some c => [c]
    | none => []

/-- Result of `emitLine` mapped over a list of extracted lines, in order. -/
def emitLines (p : List Char → Option α) : List (List Char) → List α
  | [] => []
  | l :: ls => emitLine p l ++ emitLines p ls

/-- The decoder loop of `streamGenerator`: with the current buffer, for
each read append it to the buffer and extract/emit all complete lines;
when the reader reports end-of-stream, flush the trailing buffer through
the same trim/parse step. -/
def streamGenerator (p : List Char → Option α) : List Char → List (List Char) → List α
  | buf, [] => emitLine p buf
  | buf, r :: rs =>
    let e := extractLines (buf ++ r)
    emitLines p e.1 ++ streamGenerator p e.2 rs

/-- Concatenation of all byte reads: the full body text. -/
def concatAll : List (List Char) → List Char
  | [] => []
  | r :: rs => r ++ concatAll rs

/-- Body made of `lines` each followed by a newline, then the trailing text `b`. -/
def joinLines : List (List Char) → List Char → List Char
  | [], b => b
  | l :: ls, b => l ++ '\n' :: joinLines ls b

/-- Newline-separated body with no trailing newline. -/
def intercalateNl : List (List Char) → List Char
  | [] => []
  | [l] => l
  | l :: ls => l ++ '\n' :: intercalateNl ls

/-- The wire body for a sequence of newline-delimited lines, with or
without a terminating newline after the last one. -/
def encodeStream (lines : List (List Char)) (trailingNewline : Bool) : List Char :=
  if trailingNewline then joinLines lines [] else intercalateNl lines

/-! ### Data model of the response translator (core/contentGenerator.ts)

The Ollama wire shapes and the uniform (Gemini-style) response shape.
Tool-call parameter maps (`Record<string, unknown>`) are opaque to the
translator, which only copies them; they are modelled by a type
parameter `A`. -/

inductive FinishReason where
  | FINISH_REASON_UNSPECIFIED
  | STOP
  | MAX_TOKENS
  | OTHER
deriving DecidableEq, Repr

structure OllamaFunctionSpec (A : Type) where
  name : String
  parameters : A
deriving DecidableEq, Repr

structure OllamaToolCall (A : Type) where
  function : OllamaFunctionSpec A
deriving DecidableEq, Repr

/-- One backend generate response / stream chunk. -/
structure OllamaGenerateResponse (A : Type) where
  model : String := ""
  created_at : String := ""
  response : String := ""
  done : Bool := false
  done_reason : Option String := none
  context : Option (List Int) := none
  prompt_eval_count : Option Nat := none
  eval_count : Option Nat := none
  tool_calls : Option (List (OllamaToolCall A)) := none
deriving DecidableEq, Repr

structure FunctionCall (A : Type) where
  name : String
  args : A
deriving DecidableEq, Repr

/-- A uniform content part: a text part or a function-call part. -/
inductive Part (A : Type) where
  | text (s : String)
  | functionCall (fc : FunctionCall A)
deriving DecidableEq, Repr

inductive HarmCategory where
  | HARM_CATEGORY_UNSPECIFIED
deriving DecidableEq, Repr

inductive HarmProbability where
  | NEGLIGIBLE
deriving DecidableEq, Repr

structure SafetyRating where
  category : HarmCategory
  probability : HarmProbability
deriving DecidableEq, Repr

/-- The placeholder safety ratings the translator attaches everywhere. -/
def defaultSafetyRatings : List SafetyRating :=
  [{ category := .HARM_CATEGORY_UNSPECIFIED, probability := .NEGLIGIBLE }]

structure Candidate (A : Type) where
  parts : List (Part A)
  role : String
  finishReason : FinishReason
  index : Nat
  safetyRatings : List SafetyRating
  tokenCount : Option Nat
deriving DecidableEq, Repr

structure GenerateContentResponse (A : Type) where
  candidates : List (Candidate A)
  promptFeedbackSafetyRatings : List SafetyRating
  text : Option String
  functionCalls : Option (List (FunctionCall A))
deriving DecidableEq, Repr

/-- A request part; only its optional `text` matters to the translator. -/
structure ReqPart where
  text : Option String := none
deriving DecidableEq, Repr

/-- A structured conversation turn; `parts` is optional in the SDK shape,
and the code checks for its presence before using it. -/
structure Content where
  role : Option String := none
  parts : Option (List ReqPart) := none
deriving DecidableEq, Repr

/-- An element of a `contents` array: a bare string or a turn. -/
inductive ContentItem where
  | str (s : String)
  | content (c : Content)
deriving DecidableEq, Repr

/-- The `contents` union the code repeatedly shape-sniffs:
`string | Content | Array<string | Content>`. -/
inductive RequestContents where
  | ofString (s : String)
  | ofContent (c : Content)
  | ofList (items : List ContentItem)
deriving DecidableEq, Repr

structure GenerationConfig where
  temperature : Option ℚ := none
  topP : Option ℚ := none
  topK : Option ℚ := none
  maxOutputTokens : Option ℚ := none
  stopSequences : Option (List String) := none
deriving DecidableEq, Repr

structure GenerateContentParameters where
  contents : RequestContents
  config : Option GenerationConfig := none
deriving DecidableEq, Repr

structure OllamaOptions where
  temperature : Option ℚ := none
  top_p : Option ℚ := none
  top_k : Option ℚ := none
  num_predict : Option ℚ := none
  stop : Option (List String) := none
deriving DecidableEq, Repr

/-- Check `Object.keys(options).length === 0`: no option field was set. -/
def OllamaOptions.allUnset (o : OllamaOptions) : Bool :=
  o.temperature.isNone && o.top_p.isNone && o.top_k.isNone &&
    o.num_predict.isNone && o.stop.isNone

structure OllamaGenerateParams where
  model : String
  prompt : String
  system : Option String := none
  template : Option String := none
  context : Option (List Int) := none
  stream : Bool := false
  options : Option OllamaOptions := none
deriving DecidableEq, Repr

/-- Join `parts.map((part) => part.text || '').join(' ')`. -/
def joinPartTexts (ps : List ReqPart) : String :=
  String.intercalate " " (ps.map fun part => part.text.getD "")

/-- Prompt harvesting of `paramsFromGeminiRequest`: only a non-empty
`contents` array whose last element is a structured turn carrying a
`parts` array contributes (its part texts joined by a space); a bare
string, a single turn, or an array ending in a bare string all leave the
prompt empty. -/
def promptFromContents : RequestContents → String
  | .ofList items =>
    match items.getLast? with
    | some (.content c) =>
      match c.parts with
      | some ps => joinPartTexts ps
      | _ => ""
    | _ => ""
  | _ => ""

/-- Field-by-field option mapping of `paramsFromGeminiRequest`. -/
def optionsFromConfig : Option GenerationConfig → OllamaOptions
  | none => {}
  | some cfg =>
    { temperature := cfg.temperature
      top_p := cfg.topP
      top_k := cfg.topK
      num_predict := cfg.maxOutputTokens
      stop := cfg.stopSequences }

/-- Function `paramsFromGeminiRequest`: backend request construction. -/
def paramsFromGeminiRequest (modelName : String) (currentContext : Option (List Int))
    (request : GenerateContentParameters) : OllamaGenerateParams :=
  let options := optionsFromConfig request.config
  { model := modelName
    prompt := promptFromContents request.contents
    system := none
    template := none
    context := currentContext
    stream := false
    options := if options.allUnset then none else some options }

/-- Function `mapDoneReason` (the streaming path's reason mapping): a missing or
empty reason string (`!doneReason`) yields UNSPECIFIED, then
stop/length/default. -/
def mapDoneReason : Option String → FinishReason
  | none => .FINISH_REASON_UNSPECIFIED
  | some r =>
    if r = "" then .FINISH_REASON_UNSPECIFIED
    else if r = "stop" then .STOP
    else if r = "length" then .MAX_TOKENS
    else .OTHER

/-- The `switch (ollamaResponse.done_reason)` of `responseToGeminiResponse`,
reached only when `done` is true: an absent or unrecognised reason falls
to the `default` branch (OTHER). -/
def doneReasonSwitch (doneReason : Option String) : FinishReason :=
  if doneReason = some "stop" then .STOP
  else if doneReason = some "length" then .MAX_TOKENS
  else .OTHER

/-- Function `responseToGeminiResponse`: translate one backend response to the
uniform shape and update the held context (`currentContext` is replaced
whenever the response carries a `context` field).  Returns the uniform
response and the new held context. -/
def responseToGeminiResponse (currentContext : Option (List Int))
    (ollamaResponse : OllamaGenerateResponse A) :
    GenerateContentResponse A × Option (List Int) :=
  let newContext :=
    match ollamaResponse.context with
    | some c => some c
    | none => currentContext
  let finishReason :=
    if ollamaResponse.done then doneReasonSwitch ollamaResponse.done_reason
    else FinishReason.FINISH_REASON_UNSPECIFIED
  let textBranch : List (Part A) × Option String × Option (List (FunctionCall A)) :=
    (if ollamaResponse.response ≠ "" then [Part.text ollamaResponse.response] else [],
     some ollamaResponse.response, none)
  let r :=
    match ollamaResponse.tool_calls with
    | some tcs =>
      if tcs.length > 0 then
        let mappedFunctionCalls := tcs.map fun (toolCall : OllamaToolCall A) =>
          FunctionCall.mk toolCall.function.name toolCall.function.parameters
        (mappedFunctionCalls.map Part.functionCall, (none : Option String),
         some mappedFunctionCalls)
      else textBranch
    | none => textBranch
  ({ candidates := [{ parts := r.1
                      role := "model"
                      finishReason := finishReason
                      index := 0
                      safetyRatings := defaultSafetyRatings
                      tokenCount := ollamaResponse.eval_count }]
     promptFeedbackSafetyRatings := defaultSafetyRatings
     text := r.2.1
     functionCalls := r.2.2 },
   newContext)

/-- Function `generateContent`: build the backend params with streaming forced
off, and translate the backend's single response (supplied here as an
oracle argument), updating the held context.  Returns the params that
are sent, the uniform response, and the new held context. -/
def generateContent (modelName : String) (currentContext : Option (List Int))
    (request : GenerateContentParameters) (ollamaResponse : OllamaGenerateResponse A) :
    OllamaGenerateParams × GenerateContentResponse A × Option (List Int) :=
  let ollamaParams :=
    { paramsFromGeminiRequest modelName currentContext request with stream := false }
  let r := responseToGeminiResponse currentContext ollamaResponse
  (ollamaParams, r.1, r.2)

/-- The per-chunk translation inside `geminiStream`: text parts from the
chunk's (possibly empty) `response`, finish reason `UNSPECIFIED` until
`done`, then `mapDoneReason`; no function calls on the streaming path. -/
def chunkToGeminiResponse (ollamaChunk : OllamaGenerateResponse A) :
    GenerateContentResponse A :=
  let currentText := ollamaChunk.response
  let currentParts := if currentText ≠ "" then [Part.text currentText] else []
  { candidates := [{ parts := currentParts
                     role := "model"
                     finishReason :=
                       if ollamaChunk.done then mapDoneReason ollamaChunk.done_reason
                       else FinishReason.FINISH_REASON_UNSPECIFIED
                     index := 0
                     safetyRatings := defaultSafetyRatings
                     tokenCount := ollamaChunk.eval_count }]
    promptFeedbackSafetyRatings := defaultSafetyRatings
    text := some currentText
    functionCalls := none }

/-- One run of the `geminiStream` async generator over a backend chunk
sequence, resumed by the consumer `n` times.  Each resumption runs the
body up to (and delivers) the next yield; `finalResp` mirrors the
generator's `finalOllamaResponse` local, set to each chunk as it is
observed.  Returns the delivered responses, the final value of
`finalOllamaResponse`, and whether the body ran past the loop (a `done`
chunk needs one further resumption after its yield before the `break`
executes; a consumer that abandons iteration never resumes again). -/
def geminiStreamGo (finalResp : Option (OllamaGenerateResponse A))
    (chunks : List (OllamaGenerateResponse A)) (n : Nat) :
    List (GenerateContentResponse A) × Option (OllamaGenerateResponse A) × Bool :=
  match n with
  | 0 => ([], finalResp, false)
  | Nat.succ n' =>
    match chunks with
    | [] => ([], finalResp, true)
    | c :: rest =>
      let resp := chunkToGeminiResponse c
      if c.done then
        match n' with
        | 0 => ([resp], some c, false)
        | Nat.succ _ => ([resp], some c, true)
      else
        let r := geminiStreamGo (some c) rest n'
        (resp :: r.1, r.2.1, r.2.2)

/-- Function `generateContentStream`'s observable run: the yielded responses and
the resulting held context.  The epilogue after the loop
(`if (finalOllamaResponse && finalOllamaResponse.context) self.currentContext = ...`)
executes only if the generator body completed. -/
def generateContentStreamRun (currentContext : Option (List Int))
    (chunks : List (OllamaGenerateResponse A)) (n : Nat) :
    List (GenerateContentResponse A) × Option (List Int) :=
  let r := geminiStreamGo (A := A) none chunks n
  (r.1,
   if r.2.2 then
     match r.2.1 with
     | some finalResp =>
       match finalResp.context with
       | some ctx => some ctx
       | none => currentContext
     | none => currentContext
   else currentContext)

/-- The chunks the streaming loop observes: everything up to and
including the first `done` chunk (the loop breaks there). -/
def consumedChunks : List (OllamaGenerateResponse A) → List (OllamaGenerateResponse A)
  | [] => []
  | c :: rest => if c.done then [c] else c :: consumedChunks rest

/-- The value `finalOllamaResponse` holds once the loop has seen every
consumed chunk: the last consumed chunk if any, else its prior value. -/
def lastObserved (finalResp : Option (OllamaGenerateResponse A))
    (chunks : List (OllamaGenerateResponse A)) :
    Option (OllamaGenerateResponse A) :=
  match (consumedChunks chunks).getLast? with
  | some c => some c
  | none => finalResp

/-- The finish reasons carried by the candidates of a uniform response. -/
def candidateFinishReasons (resp : GenerateContentResponse A) : List FinishReason :=
  resp.candidates.map fun cand => cand.finishReason

/-- The text parts among a candidate's parts. -/
def textParts (ps : List (Part A)) : List (Part A) :=
  ps.filter fun part =>
    match part with
    | .text _ => true
    | .functionCall _ => false

/-! ### countTokens and embedContent -/

structure CountTokensParameters where
  contents : RequestContents
deriving DecidableEq, Repr

/-- Characters contributed by a turn's parts in `countTokens`: each part
with a truthy `text` string adds its length. -/
def partsChars (ps : List ReqPart) : Nat :=
  ps.foldl (fun numChars part =>
    match part.text with
    | some t => if t ≠ "" then numChars + t.length else numChars
    | none => numChars) 0

/-- The `numChars` accumulation of `countTokens` over the contents
union: a bare string's length; for an array, every structured turn's
part texts plus every bare-string item's length; for a single turn, its
part texts. -/
def countChars : RequestContents → Nat
  | .ofString s => s.length
  | .ofList items =>
    items.foldl (fun numChars contentItem =>
      match contentItem with
      | .content c =>
        match c.parts with
        | some ps => numChars + partsChars ps
        | none => numChars
      | .str s => numChars + s.length) 0
  | .ofContent c =>
    match c.parts with
    | some ps => partsChars ps
    | none => 0

structure CountTokensResult where
  totalTokens : Nat
  warned : Bool
deriving DecidableEq, Repr

/-- Function `countTokens`: `Math.ceil(numChars / 3.5)` (exact rational
arithmetic; 3.5 is exactly representable and the operands in scope keep
the JS double division exact enough for the ceiling), and the
unconditional `console.warn` modelled by the `warned` flag. -/
def countTokens (request : CountTokensParameters) : CountTokensResult :=
  { totalTokens := ⌈(countChars request.contents : ℚ) / (35 / 10)⌉₊
    warned := true }

/-- Prompt extraction of `embedContent`: a bare string verbatim; from an
array, only the last element and only when it is a structured turn with
a `parts` array; from a single turn, its joined part texts. -/
def extractEmbedPrompt : RequestContents → String
  | .ofString s => s
  | .ofList items =>
    match items.getLast? with
    | some (.content c) =>
      match c.parts with
      | some ps => joinPartTexts ps
      | _ => ""
    | _ => ""
  | .ofContent c =>
    match c.parts with
    | some ps => joinPartTexts ps
    | _ => ""

structure OllamaEmbeddingsParams where
  model : String
  prompt : String
deriving DecidableEq, Repr

/-- Function `embedContent` up to the backend call: extract the prompt; when it
is empty (`!promptText`) fail immediately with the fixed message — an
`Except.error` result means the backend `embeddings` operation is never
invoked; otherwise `Except.ok` carries exactly the params that are
sent. -/
def embedContent (modelName : String) (contents : RequestContents) :
    Except String OllamaEmbeddingsParams :=
  let promptText := extractEmbedPrompt contents
  if promptText = "" then
    Except.error "Prompt text is required for Ollama embedContent."
  else
    Except.ok { model := modelName, prompt := promptText }

/-! ### Transport (utils/fetch.ts, fetchWithRetry) -/

/-- A JS error as observed by the catch block of `fetchWithRetry`:
`getErrorMessage` reads `message`; `isNodeError(e) && e.code === 'ABORT_ERR'`
reads the optional `code`. -/
structure JsError where
  message : String
  code : Option String := none
deriving DecidableEq, Repr

/-- The typed error `fetchWithRetry` throws. -/
structure FetchError where
  message : String
  code : Option String := none
deriving DecidableEq, Repr

def getErrorMessage (e : JsError) : String := e.message

def timeoutMessage (timeout : Nat) : String :=
  "Request timed out after " ++ toString timeout ++ "ms"

/-- The observable environment of one `fetchWithRetry` call: whether the
caller supplied `options.signal` (only when it did not is the internal
timeout timer installed and its controller's signal used), whether the
internal controller has aborted by the time the catch block runs, and
the outcome of the underlying `fetch`. -/
structure FetchEnv (R : Type) where
  callerSignal : Bool
  controllerAborted : Bool
  outcome : Except JsError R

/-- Function `fetchWithRetry`: return the raw response on success; on failure,
classify: an `ABORT_ERR` with the internal timer installed and the
internal controller aborted becomes `ETIMEDOUT`; any other `ABORT_ERR`
is rethrown as a FetchError with code `ABORT_ERR` (falling back to
"Request aborted" when the underlying message is empty); anything else
becomes a FetchError with no code and the underlying message. -/
def fetchWithRetry (timeout : Nat) (env : FetchEnv R) : Except FetchError R :=
  let timeoutSet := !env.callerSignal
  match env.outcome with
  | Except.ok response => Except.ok response
  | Except.error error =>
    if error.code = some "ABORT_ERR" then
      if timeoutSet && env.controllerAborted then
        Except.error { message := timeoutMessage timeout, code := some "ETIMEDOUT" }
      else
        Except.error { message :=
                         if getErrorMessage error ≠ "" then getErrorMessage error
                         else "Request aborted"
                       code := some "ABORT_ERR" }
    else
      Except.error { message := getErrorMessage error, code := none }

/-! ## Theorems -/

/-! ### Decoder lemmas -/

theorem extractLines_of_no_nl {buf : List Char} (h : '\n' ∉ buf) :
    extractLines buf = ([], buf) := by
  rw [extractLines]
  exact dif_neg h

theorem takeWhile_notNl_append {l : List Char} (rest : List Char) (h : '\n' ∉ l) :
    (l ++ '\n' :: rest).takeWhile notNl = l := by
  induction l with
  | nil => simp [List.takeWhile_cons, notNl]
  | cons c cs ih =>
    have hc : c ≠ '\n' := fun hc => h (by simp [hc])
    have hcs : '\n' ∉ cs := fun hm => h (List.mem_cons_of_mem _ hm)
    simp [List.takeWhile_cons, notNl, hc, ih hcs]

theorem dropWhile_notNl_append {l : List Char} (rest : List Char) (h : '\n' ∉ l) :
    (l ++ '\n' :: rest).dropWhile notNl = '\n' :: rest := by
  induction l with
  | nil => simp [List.dropWhile_cons, notNl]
  | cons c cs ih =>
    have hc : c ≠ '\n' := fun hc => h (by simp [hc])
    have hcs : '\n' ∉ cs := fun hm => h (List.mem_cons_of_mem _ hm)
    simp [List.dropWhile_cons, notNl, hc, ih hcs]

theorem extractLines_line_cons {l : List Char} (rest : List Char) (h : '\n' ∉ l) :
    extractLines (l ++ '\n' :: rest) =
      (l :: (extractLines rest).1, (extractLines rest).2) := by
  rw [extractLines]
  have hmem : '\n' ∈ l ++ '\n' :: rest := by simp
  rw [dif_pos hmem]
  simp only [takeWhile_notNl_append rest h, dropWhile_notNl_append rest h, List.tail_cons]

theorem joinLines_append (ls : List (List Char)) (b b2 : List Char) :
    joinLines ls b ++ b2 = joinLines ls (b ++ b2) := by
  induction ls with
  | nil => rfl
  | cons l ls ih => simp [joinLines, ih, List.append_assoc]

theorem extractLines_joinLines (ls : List (List Char)) (b : List Char)
    (h : ∀ l ∈ ls, '\n' ∉ l) :
    extractLines (joinLines ls b) = (ls ++ (extractLines b).1, (extractLines b).2) := by
  induction ls with
  | nil => simp [joinLines]
  | cons l ls ih =>
    rw [joinLines, extractLines_line_cons _ (h l (by simp)),
      ih (fun x hx => h x (by simp [hx]))]
    simp

theorem dropWhile_notNl_head {buf : List Char} (h : '\n' ∈ buf) :
    buf.dropWhile notNl = '\n' :: (buf.dropWhile notNl).tail := by
  induction buf with
  | nil => cases h
  | cons c cs ih =>
    by_cases hc : c = '\n'
    · subst hc
      simp [List.dropWhile_cons, notNl]
    · have hcs : '\n' ∈ cs := by
        rcases List.mem_cons.mp h with h1 | h2
        · exact absurd h1.symm hc
        · exact h2
      simpa [List.dropWhile_cons, notNl, hc] using ih hcs

theorem extractLines_spec (buf : List Char) :
    buf = joinLines (extractLines buf).1 (extractLines buf).2 ∧
      (∀ l ∈ (extractLines buf).1, '\n' ∉ l) ∧ '\n' ∉ (extractLines buf).2 := by
  generalize hn : buf.length = n
  induction n using Nat.strong_induction_on generalizing buf with
  | _ n ih =>
    by_cases h : '\n' ∈ buf
    · have hdw := dropWhile_notNl_head h
      have hsplit := List.takeWhile_append_dropWhile (p := notNl) (l := buf)
      have htl : '\n' ∉ buf.takeWhile notNl := fun hm => by
        have := List.mem_takeWhile_imp hm
        simp [notNl] at this
      have hdecomp : buf = buf.takeWhile notNl ++ '\n' :: (buf.dropWhile notNl).tail := by
        conv_lhs => rw [← hsplit]
        rw [hdw]
        simp
      have hlen : ((buf.dropWhile notNl).tail).length < n := by
        have h1 : (buf.dropWhile notNl).length ≤ buf.length := by
          have hs := congrArg List.length hsplit
          simp only [List.length_append] at hs
          omega
        have h2 : (buf.dropWhile notNl) ≠ [] := by
          intro hnil
          rw [hnil] at hdw
          exact List.noConfusion hdw
        have h3 : 0 < (buf.dropWhile notNl).length := List.length_pos.mpr h2
        have h4 : ((buf.dropWhile notNl).tail).length = (buf.dropWhile notNl).length - 1 :=
          List.length_tail _
        omega
      obtain ⟨ihdec, ihlines, ihbuf⟩ := ih _ hlen _ rfl
      have hex : extractLines buf =
          (buf.takeWhile notNl :: (extractLines ((buf.dropWhile notNl).tail)).1,
            (extractLines ((buf.dropWhile notNl).tail)).2) := by
        conv_lhs => rw [hdecomp]
        exact extractLines_line_cons ((buf.dropWhile notNl).tail) htl
      rw [hex]
      refine ⟨?_, ?_, ihbuf⟩
      · simp only [joinLines]
        rw [← ihdec]
        exact hdecomp
      · intro l hl
        rcases List.mem_cons.mp hl with h1 | h2
        · exact h1 ▸ htl
        · exact ihlines l h2
    · rw [extractLines_of_no_nl h]
      exact ⟨rfl, by simp, h⟩

theorem extractLines_append_right (a b : List Char) :
    extractLines (a ++ b) =
      ((extractLines a).1 ++ (extractLines ((extractLines a).2 ++ b)).1,
        (extractLines ((extractLines a).2 ++ b)).2) := by
  obtain ⟨hdec, hlines, _⟩ := extractLines_spec a
  conv_lhs => rw [hdec]
  rw [joinLines_append, extractLines_joinLines _ _ hlines]

theorem emitLines_append (p : List Char → Option α) (ls1 ls2 : List (List Char)) :
    emitLines p (ls1 ++ ls2) = emitLines p ls1 ++ emitLines p ls2 := by
  induction ls1 with
  | nil => rfl
  | cons l ls ih => simp [emitLines, ih]

theorem streamGenerator_eq_decode (p : List Char → Option α) (buf : List Char)
    (reads : List (List Char)) (hb : '\n' ∉ buf) :
    streamGenerator p buf reads =
      emitLines p (extractLines (buf ++ concatAll reads)).1 ++
        emitLine p (extractLines (buf ++ concatAll reads)).2 := by
  induction reads generalizing buf with
  | nil =>
    rw [streamGenerator, concatAll]
    rw [List.append_nil, extractLines_of_no_nl hb]
    rfl
  | cons r rs ih =>
    rw [streamGenerator, concatAll]
    have hb2 : '\n' ∉ (extractLines (buf ++ r)).2 := (extractLines_spec (buf ++ r)).2.2
    rw [ih _ hb2]
    rw [← List.append_assoc buf r (concatAll rs), extractLines_append_right (buf ++ r)]
    simp [emitLines_append, List.append_assoc]

theorem emitLines_all_parsed (p : List Char → Option α) (g : List Char → α)
    (ls : List (List Char))
    (h : ∀ l ∈ ls, trimChars l = l ∧ l ≠ [] ∧ p l = some (g l)) :
    emitLines p ls = ls.map g := by
  induction ls with
  | nil => rfl
  | cons l ls ih =>
    obtain ⟨ht, hne, hp⟩ := h l (by simp)
    rw [emitLines, ih (fun x hx => h x (by simp [hx])), List.map_cons]
    simp [emitLine, ht, hne, hp]

theorem intercalateNl_eq_joinLines (ls : List (List Char)) (last : List Char) :
    intercalateNl (ls ++ [last]) = joinLines ls last := by
  induction ls with
  | nil => rfl
  | cons l ls ih =>
    cases ls with
    | nil => rfl
    | cons l2 ls2 =>
      rw [List.cons_append, intercalateNl, joinLines, ih]
      simp [List.cons_append]

theorem streamGenerator_encode (p : List Char → Option α)
    (lines reads : List (List Char)) (tn : Bool)
    (hl : ∀ l ∈ lines, '\n' ∉ l)
    (hbody : concatAll reads = encodeStream lines tn) :
    streamGenerator p [] reads = emitLines p lines := by
  have hnil : ('\n' : Char) ∉ ([] : List Char) := by simp
  have hbase := streamGenerator_eq_decode p [] reads hnil
  rw [List.nil_append, hbody] at hbase
  rw [hbase]
  cases tn with
  | true =>
    rw [encodeStream, if_pos rfl, extractLines_joinLines lines [] hl,
      extractLines_of_no_nl hnil]
    simp [emitLine, trimChars]
  | false =>
    rw [encodeStream, if_neg (by simp)]
    rcases List.eq_nil_or_concat lines with hnil2 | ⟨init, last, hsplit⟩
    · subst hnil2
      rw [intercalateNl, extractLines_of_no_nl hnil]
      simp [emitLines, emitLine, trimChars]
    · subst hsplit
      simp only [List.concat_eq_append] at hl ⊢
      rw [intercalateNl_eq_joinLines,
        extractLines_joinLines init last (fun l h2 => hl l (by simp [h2])),
        extractLines_of_no_nl (hl last (by simp))]
      rw [emitLines_append]
      simp [emitLines_append, emitLines]

/-- Claim C1: for every sequence of N newline-delimited JSON lines
delivered as the streamed body — under any split of the bytes into reads
and with or without a trailing newline after the last line — the decoder
of `OllamaClient.generate` yields exactly the N chunks parsed from the
lines, in order (a non-empty trailing buffer at end-of-stream is parsed
and yielded as the final chunk). -/
theorem claim_C1_streaming_reassembly (p : List Char → Option α) (g : List Char → α)
    (lines reads : List (List Char)) (tn : Bool)
    (hl : ∀ l ∈ lines, '\n' ∉ l ∧ trimChars l = l ∧ l ≠ [] ∧ p l = some (g l))
    (hbody : concatAll reads = encodeStream lines tn) :
    streamGenerator p [] reads = lines.map g := by
  rw [streamGenerator_encode p lines reads tn (fun l h => (hl l h).1) hbody]
  exact emitLines_all_parsed p g lines fun l h =>
    ⟨(hl l h).2.1, (hl l h).2.2.1, (hl l h).2.2.2⟩

theorem claim_C1_witness :
    streamGenerator
        (fun l => if l = ['a'] then some 0 else if l = ['b'] then some 1 else none)
        [] [['a', '\n'], ['b']] =
      ([['a'], ['b']] : List (List Char)).map
        (fun l => if l = ['a'] then (0 : Nat) else 1) :=
  claim_C1_streaming_reassembly _ _ _ _ false (by decide) (by decide)

/-- Claim C2: a streamed body in which one line is not valid JSON
(modelled by the parser returning `none` on it, which the decoder's
catch block turns into a skip) surrounded by valid lines yields all the
valid chunks in order and skips the invalid line; the run completes
normally. -/
theorem claim_C2_malformed_line_resilience (p : List Char → Option α) (g : List Char → α)
    (good1 good2 : List (List Char)) (bad : List Char)
    (reads : List (List Char)) (tn : Bool)
    (hg : ∀ l ∈ good1 ++ good2, '\n' ∉ l ∧ trimChars l = l ∧ l ≠ [] ∧ p l = some (g l))
    (hbad : '\n' ∉ bad ∧ trimChars bad = bad ∧ bad ≠ [] ∧ p bad = none)
    (hbody : concatAll reads = encodeStream (good1 ++ bad :: good2) tn) :
    streamGenerator p [] reads = good1.map g ++ good2.map g := by
  have hl : ∀ l ∈ good1 ++ bad :: good2, '\n' ∉ l := by
    intro l hmem
    rcases List.mem_append.mp hmem with h1 | h2
    · exact (hg l (List.mem_append.mpr (Or.inl h1))).1
    · rcases List.mem_cons.mp h2 with h3 | h4
      · exact h3 ▸ hbad.1
      · exact (hg l (List.mem_append.mpr (Or.inr h4))).1
  rw [streamGenerator_encode p _ reads tn hl hbody, emitLines_append, emitLines]
  have hbademit : emitLine p bad = [] := by
    rw [emitLine]
    simp only [hbad.2.1]
    rw [if_neg hbad.2.2.1, hbad.2.2.2]
  rw [hbademit,
    emitLines_all_parsed p g good1 (fun l h =>
      ⟨(hg l (List.mem_append.mpr (Or.inl h))).2.1,
        (hg l (List.mem_append.mpr (Or.inl h))).2.2.1,
        (hg l (List.mem_append.mpr (Or.inl h))).2.2.2⟩),
    emitLines_all_parsed p g good2 (fun l h =>
      ⟨(hg l (List.mem_append.mpr (Or.inr h))).2.1,
        (hg l (List.mem_append.mpr (Or.inr h))).2.2.1,
        (hg l (List.mem_append.mpr (Or.inr h))).2.2.2⟩)]
  simp

theorem claim_C2_witness :
    streamGenerator
        (fun l => if l = ['a'] then some 0 else if l = ['b'] then some 1 else none)
        [] [['a', '\n', 'x'], ['\n', 'b', '\n']] =
      ([['a']] : List (List Char)).map (fun l => if l = ['a'] then (0 : Nat) else 1) ++
        ([['b']] : List (List Char)).map (fun l => if l = ['a'] then (0 : Nat) else 1) :=
  claim_C2_malformed_line_resilience _ _ [['a']] [['b']] ['x'] _ true
    (by decide) (by decide) (by decide)

/-! ### Finish-reason mapping (C3) -/

/-- Claim C3 counterexample: on the streaming path, a chunk with
`done: true` and no `done_reason` is translated with finish reason
UNSPECIFIED (because `mapDoneReason` returns UNSPECIFIED for a falsy
reason string), not OTHER as the claim states for both paths. -/
theorem claim_C3_counterexample :
    candidateFinishReasons
        (chunkToGeminiResponse (A := Unit)
          { response := "hi", done := true, done_reason := none }) =
      [FinishReason.FINISH_REASON_UNSPECIFIED] ∧
    FinishReason.FINISH_REASON_UNSPECIFIED ≠ FinishReason.OTHER := by
  exact ⟨rfl, by decide⟩

/-- Claim C3 (amended): on both paths the finish reason is STOP for
`done` with reason "stop", MAX_TOKENS for "length", OTHER for any other
non-empty reason string, and UNSPECIFIED whenever `done` is false; but
when `done` is true and the reason is absent or empty, the
non-streaming path (`responseToGeminiResponse`) gives OTHER while the
streaming path (`chunkToGeminiResponse` via `mapDoneReason`) gives
UNSPECIFIED. -/
theorem claim_C3_finish_reason_mapping (A : Type) (ctx : Option (List Int))
    (r : OllamaGenerateResponse A) :
    (r.done = true → r.done_reason = some "stop" →
      candidateFinishReasons (responseToGeminiResponse ctx r).1 = [FinishReason.STOP] ∧
      candidateFinishReasons (chunkToGeminiResponse r) = [FinishReason.STOP]) ∧
    (r.done = true → r.done_reason = some "length" →
      candidateFinishReasons (responseToGeminiResponse ctx r).1 = [FinishReason.MAX_TOKENS] ∧
      candidateFinishReasons (chunkToGeminiResponse r) = [FinishReason.MAX_TOKENS]) ∧
    (r.done = true → ∀ s, r.done_reason = some s → s ≠ "stop" → s ≠ "length" → s ≠ "" →
      candidateFinishReasons (responseToGeminiResponse ctx r).1 = [FinishReason.OTHER] ∧
      candidateFinishReasons (chunkToGeminiResponse r) = [FinishReason.OTHER]) ∧
    (r.done = true → (r.done_reason = none ∨ r.done_reason = some "") →
      candidateFinishReasons (responseToGeminiResponse ctx r).1 = [FinishReason.OTHER] ∧
      candidateFinishReasons (chunkToGeminiResponse r) =
        [FinishReason.FINISH_REASON_UNSPECIFIED]) ∧
    (r.done = false →
      candidateFinishReasons (responseToGeminiResponse ctx r).1 =
        [FinishReason.FINISH_REASON_UNSPECIFIED] ∧
      candidateFinishReasons (chunkToGeminiResponse r) =
        [FinishReason.FINISH_REASON_UNSPECIFIED]) := by
  refine ⟨?_, ?_, ?_, ?_, ?_⟩
  · intro hd hr
    constructor <;>
      simp [candidateFinishReasons, responseToGeminiResponse, chunkToGeminiResponse,
        doneReasonSwitch, mapDoneReason, hd, hr]
  · intro hd hr
    constructor <;>
      simp [candidateFinishReasons, responseToGeminiResponse, chunkToGeminiResponse,
        doneReasonSwitch, mapDoneReason, hd, hr]
  · intro hd s hr h1 h2 h3
    constructor <;>
      simp [candidateFinishReasons, responseToGeminiResponse, chunkToGeminiResponse,
        doneReasonSwitch, mapDoneReason, hd, hr, h1, h2, h3]
  · intro hd hr
    rcases hr with hr | hr <;>
      constructor <;>
        simp [candidateFinishReasons, responseToGeminiResponse, chunkToGeminiResponse,
          doneReasonSwitch, mapDoneReason, hd, hr]
  · intro hd
    constructor <;>
      simp [candidateFinishReasons, responseToGeminiResponse, chunkToGeminiResponse,
        doneReasonSwitch, mapDoneReason, hd]

theorem claim_C3_witness :
    candidateFinishReasons
        (responseToGeminiResponse (A := Unit) none
          { response := "x", done := true, done_reason := some "stop" }).1 =
      [FinishReason.STOP] :=
  ((claim_C3_finish_reason_mapping Unit none
    { response := "x", done := true, done_reason := some "stop" }).1 rfl rfl).1

/-! ### Context replacement (C4) -/

/-- Claim C4: after two sequential non-streaming `generateContent` calls
whose backend responses carry contexts `[1,2,3]` and then `[4,5,6]`, the
held context is exactly `some [4,5,6]`, for any starting context and any
requests — the context is replaced wholesale, never merged. -/
theorem claim_C4_context_replacement (A : Type) (modelName : String)
    (ctx0 : Option (List Int)) (req1 req2 : GenerateContentParameters)
    (r1 r2 : OllamaGenerateResponse A)
    (h1 : r1.context = some [1, 2, 3]) (h2 : r2.context = some [4, 5, 6]) :
    (generateContent modelName ctx0 req1 r1).2.2 = some [1, 2, 3] ∧
    (generateContent modelName (generateContent modelName ctx0 req1 r1).2.2 req2
        r2).2.2 = some [4, 5, 6] := by
  constructor <;> simp [generateContent, responseToGeminiResponse, h1, h2]

theorem claim_C4_witness :
    (generateContent (A := Unit) "llama2"
        (generateContent (A := Unit) "llama2" none
          { contents := RequestContents.ofString "hi" }
          { response := "a", done := true, context := some [1, 2, 3] }).2.2
        { contents := RequestContents.ofString "hi again" }
        { response := "b", done := true, context := some [4, 5, 6] }).2.2 =
      some [4, 5, 6] :=
  (claim_C4_context_replacement Unit "llama2" none
    { contents := RequestContents.ofString "hi" }
    { contents := RequestContents.ofString "hi again" }
    { response := "a", done := true, context := some [1, 2, 3] }
    { response := "b", done := true, context := some [4, 5, 6] } rfl rfl).2

/-! ### Mutual exclusivity of parts (C5) -/

/-- Claim C5: when a backend response carries a non-empty tool-call
list, the translated candidate has zero text parts and exactly one
function-call part per tool-call (with `args` equal to the source
parameter map), and the top-level text field is absent; otherwise the
candidate carries at most one part, and only text parts. -/
theorem claim_C5_parts_mutual_exclusivity (A : Type) (ctx : Option (List Int))
    (r : OllamaGenerateResponse A) :
    (∀ tcs, r.tool_calls = some tcs → tcs ≠ [] →
      (responseToGeminiResponse ctx r).1.candidates.map (fun cand => cand.parts) =
        [tcs.map (fun tc =>
          Part.functionCall ⟨tc.function.name, tc.function.parameters⟩)] ∧
      (∀ cand ∈ (responseToGeminiResponse ctx r).1.candidates,
        textParts cand.parts = []) ∧
      (responseToGeminiResponse ctx r).1.text = none) ∧
    (r.tool_calls = none ∨ r.tool_calls = some [] →
      ∀ cand ∈ (responseToGeminiResponse ctx r).1.candidates,
        textParts cand.parts = cand.parts ∧ cand.parts.length ≤ 1) := by
  constructor
  · intro tcs htc hne
    have hlen : 0 < tcs.length := List.length_pos.mpr hne
    refine ⟨?_, ?_, ?_⟩
    · simp [responseToGeminiResponse, htc, hlen, List.map_map]
    · intro cand hcand
      simp [responseToGeminiResponse, htc, hlen] at hcand
      subst hcand
      simp [textParts, List.filter_eq_nil_iff]
    · simp [responseToGeminiResponse, htc, hlen]
  · intro htc cand hcand
    rcases htc with htc | htc <;>
      · by_cases hresp : r.response = "" <;>
          · simp [responseToGeminiResponse, htc, hresp] at hcand
            subst hcand
            simp [textParts, List.filter]

theorem claim_C5_witness :
    (responseToGeminiResponse (A := Unit) none
        { response := "ignored", done := true,
          tool_calls := some [⟨⟨"lookup", ()⟩⟩] }).1.candidates.map
      (fun cand => cand.parts) =
      [([⟨⟨"lookup", ()⟩⟩] : List (OllamaToolCall Unit)).map (fun tc =>
        Part.functionCall ⟨tc.function.name, tc.function.parameters⟩)] :=
  ((claim_C5_parts_mutual_exclusivity Unit none
      { response := "ignored", done := true,
        tool_calls := some [⟨⟨"lookup", ()⟩⟩] }).1
    [⟨⟨"lookup", ()⟩⟩] rfl (by decide)).1

/-! ### Token estimate (C6) -/

theorem nat_ceil_div_35_10 (n : ℕ) : ⌈(n : ℚ) / (35 / 10)⌉₊ = (2 * n + 6) / 7 := by
  have hx : (n : ℚ) / (35 / 10) = ((2 * n : ℕ) : ℚ) / 7 := by push_cast; ring
  rw [hx]
  apply le_antisymm
  · apply Nat.ceil_le.mpr
    rw [div_le_iff (by norm_num : (0 : ℚ) < 7)]
    have hnat : 2 * n ≤ 7 * ((2 * n + 6) / 7) := by omega
    have h : ((2 * n : ℕ) : ℚ) ≤ ((7 * ((2 * n + 6) / 7) : ℕ) : ℚ) :=
      Nat.cast_le.mpr hnat
    calc ((2 * n : ℕ) : ℚ) ≤ ((7 * ((2 * n + 6) / 7) : ℕ) : ℚ) := h
      _ = ((2 * n + 6) / 7 : ℕ) * 7 := by push_cast; ring
  · rcases Nat.eq_zero_or_pos ((2 * n + 6) / 7) with h0 | hpos
    · simp [h0]
    · have h1 : (2 * n + 6) / 7 - 1 < ⌈((2 * n : ℕ) : ℚ) / 7⌉₊ := by
        apply Nat.lt_ceil.mpr
        rw [lt_div_iff (by norm_num : (0 : ℚ) < 7)]
        have h : (((2 * n + 6) / 7 - 1) * 7 : ℕ) < (2 * n : ℕ) := by omega
        exact_mod_cast h
      omega

/-- Claim C6: `countTokens` returns exactly the ceiling of the extracted
character count divided by 3.5 — equivalently `(2L + 6) / 7` in natural
division — always together with the rough-estimate warning; in
particular 27 characters give 8 tokens. -/
theorem claim_C6_token_estimate (request : CountTokensParameters) :
    (countTokens request).totalTokens = (2 * countChars request.contents + 6) / 7 ∧
    (countTokens request).warned = true ∧
    (countChars request.contents = 27 → (countTokens request).totalTokens = 8) := by
  refine ⟨?_, rfl, ?_⟩
  · rw [countTokens]
    exact nat_ceil_div_35_10 (countChars request.contents)
  · intro h27
    rw [countTokens]
    simp only [h27]
    rw [nat_ceil_div_35_10 27]

theorem claim_C6_witness :
    countChars (RequestContents.ofString "Tokenize this for me please") = 27 ∧
    (countTokens
        { contents := RequestContents.ofString "Tokenize this for me please" }).totalTokens
      = 8 :=
  ⟨rfl, (claim_C6_token_estimate
    { contents := RequestContents.ofString "Tokenize this for me please" }).2.2 rfl⟩

/-! ### Streaming context frame property (C7) -/

theorem geminiStreamGo_abandoned (chunks : List (OllamaGenerateResponse A)) :
    ∀ (finalResp : Option (OllamaGenerateResponse A)) (n : Nat),
      n ≤ (consumedChunks chunks).length →
      (geminiStreamGo finalResp chunks n).2.2 = false := by
  induction chunks with
  | nil =>
    intro fr n hn
    simp [consumedChunks] at hn
    subst hn
    rfl
  | cons c rest ih =>
    intro fr n hn
    cases n with
    | zero => rfl
    | succ n' =>
      by_cases hd : c.done
      · simp [consumedChunks, hd] at hn
        have hn0 : n' = 0 := by omega
        subst hn0
        simp [geminiStreamGo, hd]
      · simp [consumedChunks, hd] at hn
        have hrec := ih (some c) n' (by omega)
        simp [geminiStreamGo, hd, hrec]

theorem geminiStreamGo_completed (chunks : List (OllamaGenerateResponse A)) :
    ∀ (finalResp : Option (OllamaGenerateResponse A)) (n : Nat),
      (consumedChunks chunks).length < n →
      (geminiStreamGo finalResp chunks n).2.2 = true ∧
      (geminiStreamGo finalResp chunks n).2.1 = lastObserved finalResp chunks := by
  induction chunks with
  | nil =>
    intro fr n hn
    cases n with
    | zero => omega
    | succ n' => exact ⟨rfl, rfl⟩
  | cons c rest ih =>
    intro fr n hn
    by_cases hd : c.done
    · simp [consumedChunks, hd] at hn
      cases n with
      | zero => omega
      | succ n' =>
        cases n' with
        | zero => omega
        | succ m =>
          refine ⟨by simp [geminiStreamGo, hd], ?_⟩
          simp [geminiStreamGo, hd, lastObserved, consumedChunks]
    · simp [consumedChunks, hd] at hn
      cases n with
      | zero => omega
      | succ n' =>
        have hrec := ih (some c) n' (by omega)
        refine ⟨by simp [geminiStreamGo, hd, hrec.1], ?_⟩
        have hgo : (geminiStreamGo fr (c :: rest) (n' + 1)).2.1 =
            (geminiStreamGo (some c) rest n').2.1 := by
          simp [geminiStreamGo, hd]
        rw [hgo, hrec.2]
        have hcc : consumedChunks (c :: rest) = c :: consumedChunks rest := by
          simp [consumedChunks, hd]
        simp only [lastObserved, hcc]
        cases hrest : (consumedChunks rest).getLast? with
        | none =>
          have hnil : consumedChunks rest = [] := by
            cases hc : consumedChunks rest with
            | nil => rfl
            | cons x xs =>
              rw [hc] at hrest
              simp [List.getLast?_concat] at hrest
          simp [hnil]
        | some x =>
          have hne : consumedChunks rest ≠ [] := by
            intro hc
            rw [hc] at hrest
            exact Option.noConfusion hrest
          obtain ⟨y, ys, hys⟩ := List.exists_cons_of_ne_nil hne
          rw [hys, List.getLast?_cons_cons]
          rw [hys] at hrest
          rw [hrest]

/-- Claim C7: during `generateContentStream`, the held context is never
modified while the consumer is still taking yields (any resumption count
within the yield budget leaves it untouched); it changes only once the
generator body runs past the loop, and then to the context of the last
chunk observed (unchanged if that chunk carries none). -/
theorem claim_C7_stream_context_frame (A : Type) (ctx0 : Option (List Int))
    (chunks : List (OllamaGenerateResponse A)) (n : Nat) :
    (n ≤ (consumedChunks chunks).length →
      (generateContentStreamRun ctx0 chunks n).2 = ctx0) ∧
    ((consumedChunks chunks).length < n →
      (generateContentStreamRun ctx0 chunks n).2 =
        match (consumedChunks chunks).getLast? with
        | some last =>
          match last.context with
          | some c => some c
          | none => ctx0
        | none => ctx0) := by
  constructor
  · intro hn
    have hfalse := geminiStreamGo_abandoned chunks none n hn
    simp [generateContentStreamRun, hfalse]
  · intro hn
    obtain ⟨htrue, hlast⟩ := geminiStreamGo_completed chunks none n hn
    rw [generateContentStreamRun]
    simp only [htrue, if_pos, hlast, lastObserved]
    cases (consumedChunks chunks).getLast? with
    | none => rfl
    | some last => rfl

theorem claim_C7_witness :
    (generateContentStreamRun (A := Unit) (some [9])
        [{ response := "x", done := true, context := some [4] }] 1).2 = some [9] :=
  (claim_C7_stream_context_frame Unit (some [9])
    [{ response := "x", done := true, context := some [4] }] 1).1 (by decide)

/-! ### embedContent empty-prompt rejection (C8) -/

/-- Claim C8: whenever `embedContent`'s deterministic extraction yields
no (non-empty) prompt text, the call fails immediately — before the
backend `embeddings` operation could be issued (the error result carries
no request) — with exactly the fixed message; in particular a turn with
zero parts and a bare empty string both extract to the empty prompt. -/
theorem claim_C8_empty_prompt_rejection (modelName : String)
    (contents : RequestContents) (h : extractEmbedPrompt contents = "") :
    embedContent modelName contents =
      Except.error "Prompt text is required for Ollama embedContent." ∧
    extractEmbedPrompt (RequestContents.ofContent { parts := some [] }) = "" ∧
    extractEmbedPrompt (RequestContents.ofString "") = "" := by
  refine ⟨?_, rfl, rfl⟩
  rw [embedContent]
  simp [h]

theorem claim_C8_witness :
    embedContent "llama2" (RequestContents.ofContent { parts := some [] }) =
      Except.error "Prompt text is required for Ollama embedContent." :=
  (claim_C8_empty_prompt_rejection "llama2"
    (RequestContents.ofContent { parts := some [] }) rfl).1

/-! ### Transport error classification (C9) -/

/-- Claim C9: when no caller signal is supplied and the internal timeout
has aborted the request (the underlying fetch failing with ABORT_ERR),
`fetchWithRetry` fails with a FetchError whose code is exactly
ETIMEDOUT; every other underlying failure surfaces as a FetchError whose
code is not ETIMEDOUT, with a message derived from the underlying error
(its message, or the fixed abort fallback when that message is empty). -/
theorem claim_C9_fetch_error_codes (R : Type) (timeout : Nat) (env : FetchEnv R) :
    (env.callerSignal = false → env.controllerAborted = true →
      ∀ e, env.outcome = Except.error e → e.code = some "ABORT_ERR" →
        fetchWithRetry timeout env =
          Except.error { message := timeoutMessage timeout, code := some "ETIMEDOUT" }) ∧
    (∀ e, env.outcome = Except.error e →
      ¬(env.callerSignal = false ∧ env.controllerAborted = true ∧
          e.code = some "ABORT_ERR") →
      ∃ fe, fetchWithRetry timeout env = Except.error fe ∧
        fe.code ≠ some "ETIMEDOUT" ∧
        (fe.message = getErrorMessage e ∨
          (getErrorMessage e = "" ∧ fe.message = "Request aborted"))) := by
  constructor
  · intro hcs hca e he hcode
    rw [fetchWithRetry]
    simp [he, hcode, hcs, hca]
  · intro e he hnot
    rw [fetchWithRetry]
    simp only [he]
    by_cases hcode : e.code = some "ABORT_ERR"
    · have hsig : ¬(env.callerSignal = false ∧ env.controllerAborted = true) := by
        intro hboth
        exact hnot ⟨hboth.1, hboth.2, hcode⟩
      have hcond : (!env.callerSignal && env.controllerAborted) = false := by
        cases hc1 : env.callerSignal with
        | true => rfl
        | false =>
          cases hc2 : env.controllerAborted with
          | false => rfl
          | true => exact absurd ⟨hc1, hc2⟩ hsig
      by_cases hmsg : getErrorMessage e = ""
      · refine ⟨{ message := "Request aborted", code := some "ABORT_ERR" }, ?_,
          by decide, Or.inr ⟨hmsg, rfl⟩⟩
        simp [hcode, hcond, hmsg]
      · refine ⟨{ message := getErrorMessage e, code := some "ABORT_ERR" }, ?_,
          by simp, Or.inl rfl⟩
        simp [hcode, hcond, hmsg]
    · refine ⟨{ message := getErrorMessage e, code := none }, ?_, by simp, Or.inl rfl⟩
      simp [hcode]

theorem claim_C9_witness :
    fetchWithRetry (R := Unit) 10000
        { callerSignal := false, controllerAborted := true,
          outcome := Except.error { message := "aborted", code := some "ABORT_ERR" } } =
      Except.error { message := timeoutMessage 10000, code := some "ETIMEDOUT" } :=
  (claim_C9_fetch_error_codes Unit 10000
      { callerSignal := false, controllerAborted := true,
        outcome := Except.error { message := "aborted", code := some "ABORT_ERR" } }).1
    rfl rfl { message := "aborted", code := some "ABORT_ERR" } rfl rfl

/-! ### Prompt harvesting (C10) -/

/-- Claim C10 (implicit): `paramsFromGeminiRequest` harvests a prompt
only from a non-empty `contents` array whose last element is a
structured turn with a `parts` array (its part texts joined by single
spaces); a bare string, a single turn object, an empty array, or an
array ending in a bare string all send the empty prompt. -/
theorem claim_C10_prompt_harvesting (modelName : String) (ctx : Option (List Int))
    (cfg : Option GenerationConfig) :
    (∀ s, (paramsFromGeminiRequest modelName ctx
      { contents := RequestContents.ofString s, config := cfg }).prompt = "") ∧
    (∀ c, (paramsFromGeminiRequest modelName ctx
      { contents := RequestContents.ofContent c, config := cfg }).prompt = "") ∧
    ((paramsFromGeminiRequest modelName ctx
      { contents := RequestContents.ofList [], config := cfg }).prompt = "") ∧
    (∀ items s, (paramsFromGeminiRequest modelName ctx
      { contents := RequestContents.ofList (items ++ [ContentItem.str s]),
        config := cfg }).prompt = "") ∧
    (∀ items c ps, c.parts = some ps →
      (paramsFromGeminiRequest modelName ctx
        { contents := RequestContents.ofList (items ++ [ContentItem.content c]),
          config := cfg }).prompt =
        String.intercalate " " (ps.map fun part => part.text.getD "")) ∧
    (∀ items c, c.parts = none →
      (paramsFromGeminiRequest modelName ctx
        { contents := RequestContents.ofList (items ++ [ContentItem.content c]),
          config := cfg }).prompt = "") := by
  refine ⟨fun s => rfl, fun c => rfl, rfl, ?_, ?_, ?_⟩
  · intro items s
    simp [paramsFromGeminiRequest, promptFromContents, List.getLast?_concat]
  · intro items c ps hps
    simp [paramsFromGeminiRequest, promptFromContents, List.getLast?_concat, hps,
      joinPartTexts]
  · intro items c hps
    simp [paramsFromGeminiRequest, promptFromContents, List.getLast?_concat, hps]

theorem claim_C10_witness :
    (paramsFromGeminiRequest "llama2" none
        { contents := RequestContents.ofList
            [ContentItem.content
              { role := some "user",
                parts := some [{ text := some "hi" }, { text := some "there" }] }],
          config := none }).prompt =
      String.intercalate " "
        (([{ text := some "hi" }, { text := some "there" }] : List ReqPart).map
          fun part => part.text.getD "") :=
  (claim_C10_prompt_harvesting "llama2" none none).2.2.2.2.1 []
    { role := some "user",
      parts := some [{ text := some "hi" }, { text := some "there" }] }
    [{ text := some "hi" }, { text := some "there" }] rfl

end OllamaSpec
